import Mathlib

/-!
Verification of the Trendyol product sync pipeline
(`scripts/reference/sync_trendyol_products.py`) against its specification.

The script manipulates JSON payloads as Python dicts/lists.  We embed the
JSON universe shallowly: objects are association lists (Python dicts keep
insertion order; assignment to an existing key keeps its position), JSON
numbers keep Python's int/float distinction (`JVal.int` vs `JVal.num`),
and `Decimal` values produced by `to_decimal` are represented as `JVal.num`.
`str()` renderings are exact for the scalar values the pipeline relies on
(`None`, booleans, ints, strings); container renderings are modelled by a
fixed non-blank placeholder (Python's `str` of a list/dict is never blank,
which is the only fact the code depends on).
-/

inductive JVal : Type where
  | null : JVal
  | bool : Bool → JVal
  | int : ℤ → JVal
  | num : ℚ → JVal
  | str : String → JVal
  | arr : List JVal → JVal
  | obj : List (String × JVal) → JVal

/-- A Python dict holding a JSON object: an insertion-ordered association list. -/
abbrev Item := List (String × JVal)

/-- Python truthiness (`if value:`) on JSON values. -/
def truthy : JVal → Bool
  | JVal.null => false
  | JVal.bool b => b
  | JVal.int n => !(n == 0)
  | JVal.num q => !(q == 0)
  | JVal.str s => !(s == "")
  | JVal.arr l => !l.isEmpty
  | JVal.obj l => !l.isEmpty

/-- Python `str(value)`: exact for `None`, booleans, ints and strings; floats
and containers are rendered by a deterministic non-blank stand-in (the code
only ever relies on such renderings being non-blank). -/
def pyStr : JVal → String
  | JVal.null => "None"
  | JVal.bool true => "True"
  | JVal.bool false => "False"
  | JVal.int n => toString n
  | JVal.num q => toString q
  | JVal.str s => s
  | JVal.arr _ => "[...]"
  | JVal.obj _ => "\x7b...\x7d"

/-- Python `str.strip()`.  (`String.trim` is byte-position recursion that the
kernel cannot evaluate; this char-list model reduces definitionally.) -/
def pyStrip (s : String) : String :=
  String.mk (((s.data.dropWhile Char.isWhitespace).reverse.dropWhile
    Char.isWhitespace).reverse)

/-- `item.get(k, d)`: first binding of `k`, else the default. -/
def jgetD : Item → String → JVal → JVal
  | [], _, d => d
  | kv :: rest, k, d => if kv.1 = k then kv.2 else jgetD rest k d

/-- `item.get(k)`: Python returns `None` both for a missing key and for a
stored JSON `null`; both routes land on `JVal.null`. -/
def jget (item : Item) (k : String) : JVal := jgetD item k JVal.null

/-- `item[k] = v`: replace in place if present (keeping the position), else
append (Python dicts keep insertion order). -/
def jset : Item → String → JVal → Item
  | [], k, v => [(k, v)]
  | kv :: rest, k, v => if kv.1 = k then (k, v) :: rest else kv :: jset rest k v

/-- `k in item`. -/
def hasKey : Item → String → Bool
  | [], _ => false
  | kv :: rest, k => if kv.1 = k then true else hasKey rest k

/-- Python `==` between JSON scalars, as used for dict keys: `True == 1`,
`1 == 1.0`, `"1" != 1`.  Containers are never dict keys (unhashable), so the
container rows are irrelevant here and return `false`. -/
def pyEq : JVal → JVal → Bool
  | JVal.null, JVal.null => true
  | JVal.bool a, JVal.bool b => a == b
  | JVal.bool a, JVal.int n => (if a then (1 : ℤ) else 0) == n
  | JVal.int n, JVal.bool a => n == (if a then (1 : ℤ) else 0)
  | JVal.bool a, JVal.num q => (if a then (1 : ℚ) else 0) == q
  | JVal.num q, JVal.bool a => q == (if a then (1 : ℚ) else 0)
  | JVal.int n, JVal.int m => n == m
  | JVal.int n, JVal.num q => ((n : ℚ)) == q
  | JVal.num q, JVal.int n => q == ((n : ℚ))
  | JVal.num p, JVal.num q => p == q
  | JVal.str s, JVal.str t => s == t
  | _, _ => false

/-- `value == 1` for the buybox rank comparison. -/
def pyEqInt (v : JVal) (n : ℤ) : Bool := pyEq v (JVal.int n)

/-- `isinstance(value, int)` with the resulting int: Python booleans are ints. -/
def pyIsInt : JVal → Option ℤ
  | JVal.int n => some n
  | JVal.bool b => some (if b then 1 else 0)
  | _ => none

/-! ### `to_decimal` (source lines 153-159)

`Decimal(str(value))` guarded by `InvalidOperation`/`ValueError`.  The model
of decimal-string parsing covers the plain numeric literals (optional sign,
digits, optional fraction part, surrounding whitespace) — exactly the shapes
the platform's price fields take; exponents and the `NaN`/`Infinity` spellings
are out of the modelled fragment.  Non-string scalars go through `str()`:
ints and floats parse back to themselves, `None`/booleans/containers render
to non-numeric text and yield `None`. -/

def parseDigits (cs : List Char) : Option ℕ :=
  if cs.isEmpty then none
  else cs.foldlM (fun acc c => if c.isDigit then some (acc * 10 + (c.toNat - 48)) else none) 0

def parseUnsignedDec (cs : List Char) : Option ℚ :=
  match cs.span (fun c => !(c == '.')) with
  | (intPart, []) => (parseDigits intPart).map (fun n => (n : ℚ))
  | (intPart, _dot :: fracPart) =>
    if intPart.isEmpty && fracPart.isEmpty then none
    else if fracPart.any (fun c => !c.isDigit) then none
    else
      let ip := if intPart.isEmpty then some 0 else parseDigits intPart
      match ip with
      | none => none
      | some n =>
        let f := (fracPart.foldl (fun acc c => acc * 10 + (c.toNat - 48)) 0 : ℕ)
        some ((n : ℚ) + (f : ℚ) / (10 : ℚ) ^ fracPart.length)

def parseDecimal (s : String) : Option ℚ :=
  match (pyStrip s).data with
  | '-' :: rest => (parseUnsignedDec rest).map (fun q => -q)
  | '+' :: rest => parseUnsignedDec rest
  | cs => parseUnsignedDec cs

/-- `to_decimal` from the source: `None` or `""` gives `None`; otherwise
`Decimal(str(value))`, with failures mapped to `None`. -/
def to_decimal : JVal → Option ℚ
  | JVal.null => none
  | JVal.str s => if s = "" then none else parseDecimal s
  | JVal.int n => some ((n : ℚ))
  | JVal.num q => some q
  | JVal.bool _ => none
  | JVal.arr _ => none
  | JVal.obj _ => none

/-! ### Business key resolution (`product_code_from_item`, source lines 341-346)

The loop tries `productCode`, `stockCode`, `barcode`, `id` in order and
returns `str(value)` for the first value that is neither `None` nor
blank after stripping. -/

def keyOrder : List String := ["productCode", "stockCode", "barcode", "id"]

/-- `value is not None and str(value).strip() != ""`. -/
def nonBlankB (v : JVal) : Bool :=
  match v with
  | JVal.null => false
  | _ => !(pyStrip (pyStr v) == "")

def pcfi_go (item : Item) : List String → Option String
  | [] => none
  | k :: ks =>
    let v := jget item k
    if nonBlankB v then some (pyStr v) else pcfi_go item ks

def product_code_from_item (item : Item) : Option String := pcfi_go item keyOrder

/-! ### Reconciliation sink (`upsert_products`, source lines 349-391)

Each item with a resolvable key becomes one parameter row; keyless items are
skipped (`if not product_code: continue` — the resolver never returns the
empty string, so falsiness coincides with `None`).  The returned count is the
number of rows. -/

structure Row where
  seller_id : ℤ
  product_code : String
  barcode : JVal
  stock_code : JVal
  title : JVal
  brand : JVal
  category_name : JVal
  quantity : JVal
  list_price : Option ℚ
  sale_price : Option ℚ
  approved : JVal
  on_sale : JVal
  archived : JVal
  rejected : JVal
  blacklisted : JVal
  buybox_price : Option ℚ
  buybox_competitor_count : JVal
  buybox_status : JVal
  last_update_epoch_ms : JVal
  raw : Item

def row_of_item (sid : ℤ) (pc : String) (item : Item) : Row :=
  { seller_id := sid
    product_code := pc
    barcode := jget item "barcode"
    stock_code := jget item "stockCode"
    title := jget item "title"
    brand := jget item "brand"
    category_name := jget item "categoryName"
    quantity := jget item "quantity"
    list_price := to_decimal (jget item "listPrice")
    sale_price := to_decimal (jget item "salePrice")
    approved := jget item "approved"
    on_sale := jget item "onSale"
    archived := jget item "archived"
    rejected := jget item "rejected"
    blacklisted := jget item "blacklisted"
    buybox_price := to_decimal (jget item "buybox_price")
    buybox_competitor_count := jget item "buybox_competitor_count"
    buybox_status := jget item "buybox_status"
    last_update_epoch_ms := jget item "lastUpdateDate"
    raw := item }

def upsert_rows (sid : ℤ) (items : List Item) : List Row :=
  items.filterMap (fun item =>
    (product_code_from_item item).map (fun pc => row_of_item sid pc item))

def upsert_products (sid : ℤ) (items : List Item) : ℕ :=
  (upsert_rows sid items).length

/-! ### Competitive status inference (`main`, source lines 449-487)

For each item of a fetched page the loop mutates the item dict in place:
with a pricing entry for its barcode it writes `buybox_price`,
`buybox_competitor_count` (2/1 by the multiple-sellers flag) and
`buybox_status` (WIN iff `buyboxOrder == 1`); without one it writes the
solo-winner fields when the sale price parses, else only
`buybox_status = "UNKNOWN"`.

The pricing map handed to this loop is keyed by the barcode values the
enrichment responses reported.  `main` looks an item up via the *string*
`str(item["barcode"])`, and Python string equality only ever matches string
keys, whose stored values are necessarily entry dicts; the lookup is
therefore modelled over a `String`-keyed association list of items
(`bmap_of` below performs that restriction). -/

def lookupS : List (String × Item) → String → Option Item
  | [], _ => none
  | kv :: rest, k => if kv.1 = k then some kv.2 else lookupS rest k

/-- `bc = str(item.get("barcode")) if item.get("barcode") else None` followed
by `if bc and bc in buybox_map`. -/
def entry_for (bmap : List (String × Item)) (item : Item) : Option Item :=
  let v := jget item "barcode"
  if truthy v then
    let bc := pyStr v
    if bc = "" then none else lookupS bmap bc
  else none

def infer_item (bmap : List (String × Item)) (item : Item) : Item :=
  let sale := to_decimal (jget item "salePrice")
  match entry_for bmap item with
  | some entry =>
    let it1 := jset item "buybox_price" (jget entry "buyboxPrice")
    let hasMultiple := jgetD entry "hasMultipleSeller" (JVal.bool false)
    let it2 := jset it1 "buybox_competitor_count"
      (JVal.int (if truthy hasMultiple then 2 else 1))
    let order := jget entry "buyboxOrder"
    if pyEqInt order 1 then jset it2 "buybox_status" (JVal.str "WIN")
    else jset it2 "buybox_status" (JVal.str "LOSE")
  | none =>
    match sale with
    | some q =>
      let it1 := jset item "buybox_competitor_count" (JVal.int 0)
      let it2 := jset it1 "buybox_status" (JVal.str "WIN")
      jset it2 "buybox_price" (JVal.num q)
    | none => jset item "buybox_status" (JVal.str "UNKNOWN")

/-! ### HTTP responses

A response carries a transport flag (`exn = true` models `session.get`/
`session.post` raising, which only `fetch_buybox_info` catches), the HTTP
status, and the decoded JSON body (`none` models `response.json()` raising
on an undecodable body).  Requests consume a list of responses in order; an
exhausted list behaves as a transport failure. -/

structure BResp where
  exn : Bool
  status : ℕ
  body : Option JVal

def pop : List BResp → BResp × List BResp
  | [] => ({ exn := true, status := 0, body := none }, [])
  | r :: rest => (r, rest)

/-! ### Catalog fetcher (`fetch_products_page`, source lines 222-267)

Three attempts; a 429 on attempts 0 and 1 sleeps `(attempt + 1) * 1.5` and
retries.  Otherwise: a transport exception propagates; 401/403 raise the
authentication error; any other status `>= 400` (including a third 429)
raises the generic HTTP error; an undecodable body raises; a decodable body
that is not a dict raises the protocol violation; a dict is returned.  The
trailing `raise` about repeated rate limiting (line 267) is unreachable —
the third attempt always returns or raises.  `sleeps` records the backoff
delays in order, in seconds. -/

inductive FetchErr : Type where
  | transport : FetchErr
  | auth : ℕ → FetchErr
  | http : ℕ → FetchErr
  | badJson : FetchErr
  | badShape : FetchErr

structure FetchResult where
  outcome : Except FetchErr Item
  rest : List BResp
  sleeps : List ℚ

/-- The non-retry outcome of one attempt, in the source's test order. -/
def attemptResult (r : BResp) : Except FetchErr Item :=
  if r.exn then Except.error FetchErr.transport
  else if r.status = 401 ∨ r.status = 403 then Except.error (FetchErr.auth r.status)
  else if 400 ≤ r.status then Except.error (FetchErr.http r.status)
  else
    match r.body with
    | none => Except.error FetchErr.badJson
    | some v =>
      match v with
      | JVal.obj kvs => Except.ok kvs
      | _ => Except.error FetchErr.badShape

/-- `response.status_code == 429 and attempt < 2` (a transport exception
raises before the status is ever inspected). -/
def retry429 (attempt : ℕ) (r : BResp) : Bool :=
  !r.exn && r.status == 429 && decide (attempt < 2)

def fetch_products_page (rs : List BResp) : FetchResult :=
  let p0 := pop rs
  if retry429 0 p0.1 then
    let p1 := pop p0.2
    if retry429 1 p1.1 then
      let p2 := pop p1.2
      { outcome := attemptResult p2.1, rest := p2.2, sleeps := [3/2, 3] }
    else { outcome := attemptResult p1.1, rest := p1.2, sleeps := [3/2] }
  else { outcome := attemptResult p0.1, rest := p0.2, sleeps := [] }

/-- `content = data.get("content") or []` followed by the list check in
`main` (lines 439-441): a falsy `content` value (missing, `null`, `""`,
`0`, `false`, empty containers) is coerced to the empty list; a truthy
non-list raises the protocol error. -/
def content_of (data : Item) : Except Unit (List JVal) :=
  let c := jget data "content"
  let c2 := if truthy c then c else JVal.arr []
  match c2 with
  | JVal.arr l => Except.ok l
  | _ => Except.error ()

/-! ### Pricing enrichment (`fetch_buybox_info`, source lines 270-333)

Barcodes are stripped, blanks dropped and the rest deduplicated
(`list(set(...))`; the set's iteration order is unspecified in Python, the
model keeps first occurrences — no claim depends on the order).  The list is
cut into chunks of 20; each chunk gets up to 3 attempts (429 retries on the
first two).  Everything per chunk runs inside `try/except Exception`: a
transport exception, an error status, an undecodable body, a non-iterable
`buyboxInfo`, a non-dict entry or an unhashable barcode all abandon the
*remainder* of the chunk — entries already written into `all_results`
before the failure are kept — and processing moves on to the next chunk. -/

abbrev PyMap := List (JVal × JVal)

/-- Python dict assignment with `==`-equality on keys: replace the first
matching binding in place (keeping the stored key object), else append. -/
def assocSetPy : PyMap → JVal → JVal → PyMap
  | [], k, v => [(k, v)]
  | kv :: rest, k, v => if pyEq kv.1 k then (kv.1, v) :: rest else kv :: assocSetPy rest k v

def lookupPy : PyMap → JVal → Option JVal
  | [], _ => none
  | kv :: rest, k => if pyEq kv.1 k then some kv.2 else lookupPy rest k

/-- Dict keys must be hashable: a list or dict barcode raises `TypeError`. -/
def hashableB : JVal → Bool
  | JVal.arr _ => false
  | JVal.obj _ => false
  | _ => true

/-- Iterating a JSON value as Python does: lists yield elements, strings
yield 1-character strings, dicts yield their keys, scalars raise. -/
def pyIter : JVal → Except Unit (List JVal)
  | JVal.arr l => Except.ok l
  | JVal.str s => Except.ok (s.data.map (fun c => JVal.str (String.singleton c)))
  | JVal.obj kvs => Except.ok (kvs.map (fun kv => JVal.str kv.1))
  | _ => Except.error ()

/-- `entries` as iterated by the chunk loop: a dict body contributes
`data.get("buyboxInfo", [])` (itself iterated, possibly raising), a list
body is used as is, any other body leaves `entries = []`. -/
def entriesOf (data : JVal) : Except Unit (List JVal)
  := match data with
  | JVal.obj kvs => pyIter (jgetD kvs "buyboxInfo" (JVal.arr []))
  | JVal.arr l => Except.ok l
  | _ => Except.ok []

/-- The `for entry in entries` body: `entry.get("barcode")` raises on a
non-dict entry; a truthy barcode is written into the accumulator (raising
on an unhashable one).  The flag reports whether an exception cut the loop
short; either way the bindings made so far are kept. -/
def entryLoop : List JVal → PyMap → PyMap × Bool
  | [], m => (m, false)
  | e :: es, m =>
    match e with
    | JVal.obj kvs =>
      let bc := jget kvs "barcode"
      if truthy bc then
        if hashableB bc then entryLoop es (assocSetPy m bc (JVal.obj kvs)) else (m, true)
      else entryLoop es m
    | _ => (m, true)

/-- One chunk with `n` attempts remaining (the source starts at 3; a 429
retries while more than one attempt remains, mirroring `attempt < 2`). -/
def chunkGo : ℕ → List BResp → PyMap → PyMap × List BResp
  | 0, rs, m => (m, rs)
  | n + 1, rs, m =>
    let p := pop rs
    let r := p.1
    if r.exn then (m, p.2)
    else if r.status = 429 ∧ 1 ≤ n then chunkGo n p.2 m
    else if 400 ≤ r.status then (m, p.2)
    else
      match r.body with
      | none => (m, p.2)
      | some data =>
        match entriesOf data with
        | Except.error _ => (m, p.2)
        | Except.ok es => ((entryLoop es m).1, p.2)

def chunksGo : List (List String) → List BResp → PyMap → PyMap × List BResp
  | [], rs, m => (m, rs)
  | _c :: cs, rs, m =>
    let st := chunkGo 3 rs m
    chunksGo cs st.2 st.1

/-- `str(b).strip() for b in barcodes if b and str(b).strip()` then
`list(set(...))` (first occurrences kept; see the section comment). -/
def dedupGo : ℕ → List String → List String
  | 0, _ => []
  | _, [] => []
  | f + 1, b :: rest => b :: dedupGo f (rest.filter (fun x => !(x == b)))

def dedupFirst (l : List String) : List String := dedupGo l.length l

def normalize_barcodes (bs : List String) : List String :=
  dedupFirst (bs.filterMap (fun b => if pyStrip b = "" then none else some (pyStrip b)))

def chunksGoF : ℕ → List String → List (List String)
  | 0, _ => []
  | _, [] => []
  | f + 1, x :: xs => ((x :: xs).take 20) :: chunksGoF f ((x :: xs).drop 20)

def chunksOf20 (l : List String) : List (List String) := chunksGoF l.length l

def fetch_buybox_info (rs : List BResp) (barcodes : List String) : PyMap × List BResp :=
  if barcodes.isEmpty then ([], rs)
  else
    let uniq := normalize_barcodes barcodes
    if uniq.isEmpty then ([], rs)
    else chunksGo (chunksOf20 uniq) rs []

/-! ### Sync orchestrator (`main`, source lines 429-511)

The page loop, parameterised by one response list per catalog page fetch
(`pO`) and one per page's enrichment call (`bO`).  Per iteration: fetch the
page (any raised error fails the run), coerce/check `content`, add its
length to `fetched`, look up buybox data for the page's barcodes, run the
inference over every item, stop after an empty page, otherwise upsert and
stop when `totalPages` (an int, Python-wise) says this was the last page or
the page budget is exhausted.  Items must be dicts — `item.get` on anything
else raises and fails the run.  `pages` records the page indices for which
a catalog fetch was issued. -/

structure SyncResult where
  pages : List ℕ
  fetched : ℕ
  upserted : ℕ
  ok : Bool

def isObjB : JVal → Bool
  | JVal.obj _ => true
  | _ => false

def asObjD : JVal → Item
  | JVal.obj kvs => kvs
  | _ => []

/-- `[str(item.get("barcode")) for item in content if item.get("barcode")]`. -/
def barcodesOf (items : List Item) : List String :=
  items.filterMap (fun it =>
    let v := jget it "barcode"
    if truthy v then some (pyStr v) else none)

/-- Restrict the enrichment result to the bindings `main`'s string lookup
can reach: string keys (Python `==` on a `str` never matches another type)
whose values are, by construction of `entryLoop`, entry dicts. -/
def bmap_of (m : PyMap) : List (String × Item) :=
  m.filterMap (fun kv =>
    match kv with
    | (JVal.str s, JVal.obj e) => some (s, e)
    | _ => none)

def sync_go (pO bO : ℕ → List BResp) (sid : ℤ) : ℕ → ℕ → SyncResult → SyncResult
  | 0, _page, acc => acc
  | fuel + 1, page, acc =>
    let acc1 : SyncResult := { acc with pages := acc.pages ++ [page] }
    match (fetch_products_page (pO page)).outcome with
    | Except.error _ => { acc1 with ok := false }
    | Except.ok data =>
      match content_of data with
      | Except.error _ => { acc1 with ok := false }
      | Except.ok content =>
        let acc2 : SyncResult := { acc1 with fetched := acc1.fetched + content.length }
        if content.all isObjB then
          let items := content.map asObjD
          let bb := (fetch_buybox_info (bO page) (barcodesOf items)).1
          let items2 := items.map (infer_item (bmap_of bb))
          if content.isEmpty then acc2
          else
            let acc3 : SyncResult :=
              { acc2 with upserted := acc2.upserted + upsert_products sid items2 }
            match pyIsInt (jget data "totalPages") with
            | some t =>
              if (page : ℤ) + 1 ≥ t then acc3 else sync_go pO bO sid fuel (page + 1) acc3
            | none => sync_go pO bO sid fuel (page + 1) acc3
        else { acc2 with ok := false }

/-- One run: `page = 0`, counters zero, up to `maxPages` iterations. -/
def sync (pO bO : ℕ → List BResp) (sid : ℤ) (maxPages : ℕ) : SyncResult :=
  sync_go pO bO sid maxPages 0 { pages := [], fetched := 0, upserted := 0, ok := true }

/-! ## Helper lemmas about the dict operations -/

theorem jgetD_jset_self (item : Item) (k : String) (v d : JVal) :
    jgetD (jset item k v) k d = v := by
  induction item with
  | nil => simp [jset, jgetD]
  | cons kv rest ih =>
    by_cases h : kv.1 = k
    · simp [jset, h, jgetD]
    · simp [jset, h, jgetD, ih]

theorem jgetD_jset_ne (item : Item) (k k' : String) (v d : JVal) (h : k' ≠ k) :
    jgetD (jset item k v) k' d = jgetD item k' d := by
  induction item with
  | nil => simp [jset, jgetD, Ne.symm h]
  | cons kv rest ih =>
    by_cases hk : kv.1 = k
    · have hk' : ¬ kv.1 = k' := by rw [hk]; exact Ne.symm h
      simp [jset, hk, jgetD, Ne.symm h, hk']
    · simp [jset, hk, jgetD, ih]

theorem jget_jset_self (item : Item) (k : String) (v : JVal) :
    jget (jset item k v) k = v := jgetD_jset_self item k v JVal.null

theorem jget_jset_ne (item : Item) (k k' : String) (v : JVal) (h : k' ≠ k) :
    jget (jset item k v) k' = jget item k' := jgetD_jset_ne item k k' v JVal.null h

theorem hasKey_jset_ne (item : Item) (k k' : String) (v : JVal) (h : k' ≠ k) :
    hasKey (jset item k v) k' = hasKey item k' := by
  induction item with
  | nil => simp [jset, hasKey, Ne.symm h]
  | cons kv rest ih =>
    by_cases hk : kv.1 = k
    · have hk' : ¬ kv.1 = k' := by rw [hk]; exact Ne.symm h
      simp [jset, hk, hasKey, Ne.symm h, hk']
    · simp [jset, hk, hasKey, ih]

theorem jgetD_hasKey_false (item : Item) (k : String) (d : JVal)
    (h : hasKey item k = false) : jgetD item k d = d := by
  induction item with
  | nil => rfl
  | cons kv rest ih =>
    by_cases hk : kv.1 = k
    · simp [hasKey, hk] at h
    · simp [hasKey, hk] at h
      simp [jgetD, hk, ih h]

/-! ## Shape of the inference result, by branch -/

theorem infer_item_entry (bmap : List (String × Item)) (item e : Item)
    (h : entry_for bmap item = some e) :
    infer_item bmap item =
      jset (jset (jset item "buybox_price" (jget e "buyboxPrice"))
          "buybox_competitor_count"
          (JVal.int (if truthy (jgetD e "hasMultipleSeller" (JVal.bool false)) then 2 else 1)))
        "buybox_status"
        (JVal.str (if pyEqInt (jget e "buyboxOrder") 1 then "WIN" else "LOSE")) := by
  unfold infer_item
  rw [h]
  cases ho : pyEqInt (jget e "buyboxOrder") 1 <;> simp [ho]

theorem infer_item_solo_win (bmap : List (String × Item)) (item : Item) (q : ℚ)
    (h : entry_for bmap item = none)
    (hs : to_decimal (jget item "salePrice") = some q) :
    infer_item bmap item =
      jset (jset (jset item "buybox_competitor_count" (JVal.int 0))
        "buybox_status" (JVal.str "WIN")) "buybox_price" (JVal.num q) := by
  unfold infer_item
  rw [h, hs]

theorem infer_item_unknown (bmap : List (String × Item)) (item : Item)
    (h : entry_for bmap item = none)
    (hs : to_decimal (jget item "salePrice") = none) :
    infer_item bmap item = jset item "buybox_status" (JVal.str "UNKNOWN") := by
  unfold infer_item
  rw [h, hs]

/-! ## The sink stores its input item as the raw payload -/

theorem upsert_rows_raw (sid : ℤ) (items : List Item) :
    (upsert_rows sid items).map Row.raw
      = items.filter (fun it => (product_code_from_item it).isSome) := by
  induction items with
  | nil => rfl
  | cons it rest ih =>
    cases h : product_code_from_item it <;>
      simp [upsert_rows, List.filterMap_cons, h, List.filter_cons, row_of_item,
        upsert_rows] at ih ⊢ <;> simpa using ih

theorem pcfi_go_eq_find (item : Item) (ks : List String) :
    pcfi_go item ks
      = (ks.find? (fun k => nonBlankB (jget item k))).map (fun k => pyStr (jget item k)) := by
  induction ks with
  | nil => rfl
  | cons k ks ih =>
    by_cases h : nonBlankB (jget item k) <;> simp [pcfi_go, h, ih]

/-- WIN/LOSE/UNKNOWN is the complete status range of the inference, and
UNKNOWN pins down the no-entry/no-price branch. -/
theorem infer_status_cases (bmap : List (String × Item)) (item : Item) :
    jget (infer_item bmap item) "buybox_status" = JVal.str "WIN" ∨
    jget (infer_item bmap item) "buybox_status" = JVal.str "LOSE" ∨
    (jget (infer_item bmap item) "buybox_status" = JVal.str "UNKNOWN" ∧
      entry_for bmap item = none ∧ to_decimal (jget item "salePrice") = none ∧
      infer_item bmap item = jset item "buybox_status" (JVal.str "UNKNOWN")) := by
  cases he : entry_for bmap item with
  | some e =>
    rw [infer_item_entry bmap item e he, jget_jset_self]
    cases pyEqInt (jget e "buyboxOrder") 1 <;> simp
  | none =>
    cases hs : to_decimal (jget item "salePrice") with
    | some q =>
      left
      rw [infer_item_solo_win bmap item q he hs, jget_jset_ne _ _ _ _ (by decide),
        jget_jset_self]
    | none =>
      right; right
      exact ⟨by rw [infer_item_unknown bmap item he hs, jget_jset_self], rfl, rfl,
        infer_item_unknown bmap item he hs⟩

/-- Claim C1: the competitive-status inference computes exactly: with no
pricing entry and a parsing sale price, WIN with competitor count 0 and the
sale price as effective price; with no entry and an unusable sale price,
UNKNOWN with count and price left unset; with an entry, the effective price
is the entry's buybox price, the count is 2 when the multiple-sellers flag
is true and 1 otherwise, and the status is WIN exactly when the rank is 1,
LOSE otherwise. -/
theorem C1_inference_cases (item : Item) (bmap : List (String × Item)) :
    (entry_for bmap item = none →
      ∀ q : ℚ, to_decimal (jget item "salePrice") = some q →
        jget (infer_item bmap item) "buybox_status" = JVal.str "WIN" ∧
        jget (infer_item bmap item) "buybox_competitor_count" = JVal.int 0 ∧
        jget (infer_item bmap item) "buybox_price" = JVal.num q) ∧
    (entry_for bmap item = none →
      to_decimal (jget item "salePrice") = none →
        jget (infer_item bmap item) "buybox_status" = JVal.str "UNKNOWN" ∧
        (hasKey item "buybox_competitor_count" = false →
          hasKey (infer_item bmap item) "buybox_competitor_count" = false) ∧
        (hasKey item "buybox_price" = false →
          hasKey (infer_item bmap item) "buybox_price" = false)) ∧
    (∀ e, entry_for bmap item = some e →
      jget (infer_item bmap item) "buybox_price" = jget e "buyboxPrice" ∧
      (∀ b : Bool, jgetD e "hasMultipleSeller" (JVal.bool false) = JVal.bool b →
        jget (infer_item bmap item) "buybox_competitor_count"
          = JVal.int (if b then 2 else 1)) ∧
      (∀ r : ℤ, jget e "buyboxOrder" = JVal.int r →
        jget (infer_item bmap item) "buybox_status"
          = JVal.str (if r = 1 then "WIN" else "LOSE"))) := by
  refine ⟨?_, ?_, ?_⟩
  · intro he q hs
    rw [infer_item_solo_win bmap item q he hs]
    refine ⟨?_, ?_, ?_⟩
    · rw [jget_jset_ne _ _ _ _ (by decide), jget_jset_self]
    · rw [jget_jset_ne _ _ _ _ (by decide), jget_jset_ne _ _ _ _ (by decide),
        jget_jset_self]
    · rw [jget_jset_self]
  · intro he hs
    rw [infer_item_unknown bmap item he hs]
    exact ⟨jget_jset_self _ _ _,
      fun h => by rw [hasKey_jset_ne _ _ _ _ (by decide)]; exact h,
      fun h => by rw [hasKey_jset_ne _ _ _ _ (by decide)]; exact h⟩
  · intro e he
    refine ⟨?_, ?_, ?_⟩
    · rw [infer_item_entry bmap item e he, jget_jset_ne _ _ _ _ (by decide),
        jget_jset_ne _ _ _ _ (by decide), jget_jset_self]
    · intro b hb
      rw [infer_item_entry bmap item e he, jget_jset_ne _ _ _ _ (by decide),
        jget_jset_self, hb]
      cases b <;> rfl
    · intro r hr
      rw [infer_item_entry bmap item e he, jget_jset_self, hr]
      have hpe : pyEqInt (JVal.int r) 1 = (r == 1) := rfl
      rw [hpe]
      by_cases h1 : r = 1 <;> simp [h1]

def c1item : Item := [("barcode", JVal.str "B1"), ("salePrice", JVal.int 10)]

def c1entry : Item :=
  [("buyboxPrice", JVal.num 50), ("hasMultipleSeller", JVal.bool true),
   ("buyboxOrder", JVal.int 2)]

def c1bmap : List (String × Item) := [("B1", c1entry)]

/-- Claim C1, witness: the spec's own scenario — an entry with the
multiple-sellers flag set and rank 2 yields LOSE, count 2, and the entry's
buybox price. -/
theorem C1_witness :
    jget (infer_item c1bmap c1item) "buybox_price" = JVal.num 50 ∧
    jget (infer_item c1bmap c1item) "buybox_competitor_count" = JVal.int 2 ∧
    jget (infer_item c1bmap c1item) "buybox_status" = JVal.str "LOSE" := by
  have h := (C1_inference_cases c1item c1bmap).2.2 c1entry (by rfl)
  refine ⟨h.1.trans (by rfl), (h.2.1 true (by rfl)).trans (by rfl), ?_⟩
  have h3 := h.2.2 2 (by rfl)
  simpa using h3

def c2item : Item := [("barcode", JVal.str "B2")]

def c2entry : Item := [("buyboxOrder", JVal.int 1)]

def c2bmap : List (String × Item) := [("B2", c2entry)]

/-- Claim C2, counterexample: an item whose pricing entry has rank 1 but no
`buyboxPrice` field is merged to status WIN with a NULL effective price —
the claimed invariant "effective_price is present whenever the status is
WIN" fails on the persisted row. -/
theorem C2_counterexample :
    (row_of_item 1 "B2" (infer_item c2bmap c2item)).buybox_status = JVal.str "WIN" ∧
    (row_of_item 1 "B2" (infer_item c2bmap c2item)).buybox_price = none := by
  constructor <;> rfl

/-- Claim C2 (amended): for an item that does not already carry the derived
columns, UNKNOWN implies both the competitor count and the effective price
are unset, and UNKNOWN occurs exactly when there is no comparison entry and
no usable sale price; the effective price is present whenever the status is
WIN *via the solo-seller branch* (it equals the parsed sale price); when an
entry exists the effective price is the parse of the entry's buybox price,
which is absent exactly when that field is missing or non-numeric. -/
theorem C2_row_invariant (item : Item) (bmap : List (String × Item)) (sid : ℤ)
    (pc : String) :
    (hasKey item "buybox_price" = false →
      hasKey item "buybox_competitor_count" = false →
      (row_of_item sid pc (infer_item bmap item)).buybox_status = JVal.str "UNKNOWN" →
        (row_of_item sid pc (infer_item bmap item)).buybox_competitor_count = JVal.null ∧
        (row_of_item sid pc (infer_item bmap item)).buybox_price = none) ∧
    (entry_for bmap item = none →
      ∀ q : ℚ, to_decimal (jget item "salePrice") = some q →
        (row_of_item sid pc (infer_item bmap item)).buybox_status = JVal.str "WIN" ∧
        (row_of_item sid pc (infer_item bmap item)).buybox_price = some q) ∧
    (∀ e, entry_for bmap item = some e →
      (row_of_item sid pc (infer_item bmap item)).buybox_price
        = to_decimal (jget e "buyboxPrice")) ∧
    ((row_of_item sid pc (infer_item bmap item)).buybox_status = JVal.str "UNKNOWN" →
      entry_for bmap item = none ∧ to_decimal (jget item "salePrice") = none) := by
  refine ⟨?_, ?_, ?_, ?_⟩
  · intro hp hc hst
    have hst' : jget (infer_item bmap item) "buybox_status" = JVal.str "UNKNOWN" := hst
    rcases infer_status_cases bmap item with h | h | ⟨_h, _he, _hs, heq⟩
    · exact absurd (JVal.str.inj (h.symm.trans hst')) (by decide)
    · exact absurd (JVal.str.inj (h.symm.trans hst')) (by decide)
    · constructor
      · show jget (infer_item bmap item) "buybox_competitor_count" = JVal.null
        rw [heq, jget_jset_ne _ _ _ _ (by decide)]
        exact jgetD_hasKey_false item _ _ hc
      · show to_decimal (jget (infer_item bmap item) "buybox_price") = none
        rw [heq, jget_jset_ne _ _ _ _ (by decide)]
        rw [show jget item "buybox_price" = JVal.null from jgetD_hasKey_false item _ _ hp]
        rfl
  · intro he q hs
    constructor
    · show jget (infer_item bmap item) "buybox_status" = JVal.str "WIN"
      rw [infer_item_solo_win bmap item q he hs, jget_jset_ne _ _ _ _ (by decide),
        jget_jset_self]
    · show to_decimal (jget (infer_item bmap item) "buybox_price") = some q
      rw [infer_item_solo_win bmap item q he hs, jget_jset_self]
      rfl
  · intro e he
    show to_decimal (jget (infer_item bmap item) "buybox_price") = _
    rw [infer_item_entry bmap item e he, jget_jset_ne _ _ _ _ (by decide),
      jget_jset_ne _ _ _ _ (by decide), jget_jset_self]
  · intro hst
    have hst' : jget (infer_item bmap item) "buybox_status" = JVal.str "UNKNOWN" := hst
    rcases infer_status_cases bmap item with h | h | ⟨_h, he, hs, _heq⟩
    · exact absurd (JVal.str.inj (h.symm.trans hst')) (by decide)
    · exact absurd (JVal.str.inj (h.symm.trans hst')) (by decide)
    · exact ⟨he, hs⟩

def c2witem : Item := [("barcode", JVal.str "")]

/-- Claim C2 (amended), witness: an item with a falsy barcode, no pricing
entry and no sale price is merged to UNKNOWN with NULL count and price. -/
theorem C2_witness :
    (row_of_item 7 "B2" (infer_item [] c2witem)).buybox_competitor_count = JVal.null ∧
    (row_of_item 7 "B2" (infer_item [] c2witem)).buybox_price = none :=
  (C2_row_invariant c2witem [] 7 "B2").1 (by rfl) (by rfl) (by rfl)

def c3item : Item := [("productCode", JVal.str "P1"), ("salePrice", JVal.int 10)]

/-- Claim C3, counterexample: the page loop mutates each item in place
before `upsert_products` snapshots it into the raw column, so the persisted
raw payload of a solo-win item is not the payload as received — it has the
derived `buybox_*` fields injected. -/
theorem C3_counterexample :
    (upsert_rows 1 (List.map (infer_item []) [c3item])).map Row.raw ≠ [c3item] := by
  intro h
  have h2 := congrArg (fun l : List Item => jget (List.headI l) "buybox_status") h
  exact JVal.noConfusion (h2 : JVal.str "WIN" = JVal.null)

/-- Claim C3 (amended): the raw column stores verbatim the item the sink is
handed — which, in the pipeline, is the original catalog payload after the
inference step injected `buybox_price`, `buybox_competitor_count` and
`buybox_status` in place; every other field of the original payload is
preserved unchanged in the stored raw payload. -/
theorem C3_raw_payload (sid : ℤ) (items : List Item) (bmap : List (String × Item))
    (item : Item) (k : String) :
    (upsert_rows sid items).map Row.raw
        = items.filter (fun it => (product_code_from_item it).isSome) ∧
    (k ≠ "buybox_price" → k ≠ "buybox_competitor_count" → k ≠ "buybox_status" →
      jget (infer_item bmap item) k = jget item k ∧
      hasKey (infer_item bmap item) k = hasKey item k) := by
  refine ⟨upsert_rows_raw sid items, ?_⟩
  intro h1 h2 h3
  rcases he : entry_for bmap item with _ | e
  · rcases hs : to_decimal (jget item "salePrice") with _ | q
    · rw [infer_item_unknown bmap item he hs]
      exact ⟨jget_jset_ne _ _ _ _ h3, hasKey_jset_ne _ _ _ _ h3⟩
    · rw [infer_item_solo_win bmap item q he hs]
      constructor
      · rw [jget_jset_ne _ _ _ _ h1, jget_jset_ne _ _ _ _ h3, jget_jset_ne _ _ _ _ h2]
      · rw [hasKey_jset_ne _ _ _ _ h1, hasKey_jset_ne _ _ _ _ h3,
          hasKey_jset_ne _ _ _ _ h2]
  · rw [infer_item_entry bmap item e he]
    constructor
    · rw [jget_jset_ne _ _ _ _ h3, jget_jset_ne _ _ _ _ h2, jget_jset_ne _ _ _ _ h1]
    · rw [hasKey_jset_ne _ _ _ _ h3, hasKey_jset_ne _ _ _ _ h2,
        hasKey_jset_ne _ _ _ _ h1]

/-- Claim C3 (amended), witness: for the concrete solo-win item the sink
stores exactly the inferred item as raw, and a non-derived field
(`salePrice`) survives the inference unchanged. -/
theorem C3_witness :
    (upsert_rows 1 (List.map (infer_item []) [c3item])).map Row.raw
        = List.map (infer_item []) [c3item] ∧
    jget (infer_item [] c3item) "salePrice" = jget c3item "salePrice" := by
  constructor
  · exact (C3_raw_payload 1 (List.map (infer_item []) [c3item]) [] c3item "salePrice").1.trans
      (by rfl)
  · exact ((C3_raw_payload 1 (List.map (infer_item []) [c3item]) [] c3item "salePrice").2
      (by decide) (by decide) (by decide)).1

/-- Claim C4: the resolved business key is the first non-blank field among
`productCode`, `stockCode`, `barcode`, `id` (rendered through `str`), absent
exactly when all four are null or blank; keyless items are silently dropped
by the upsert and excluded from the returned count rather than raising. -/
theorem C4_business_key (item : Item) (sid : ℤ) (items : List Item) :
    product_code_from_item item
        = (keyOrder.find? (fun k => nonBlankB (jget item k))).map
            (fun k => pyStr (jget item k)) ∧
    (product_code_from_item item = none ↔
      ∀ k ∈ keyOrder, nonBlankB (jget item k) = false) ∧
    upsert_products sid items
        = (items.filter (fun it => (product_code_from_item it).isSome)).length := by
  refine ⟨pcfi_go_eq_find item keyOrder, ?_, ?_⟩
  · rw [product_code_from_item, pcfi_go_eq_find item keyOrder]
    simp [List.find?_eq_none]
  · have h := congrArg List.length (upsert_rows_raw sid items)
    simpa [upsert_products] using h

def c4item : Item :=
  [("productCode", JVal.null), ("stockCode", JVal.str "  "),
   ("barcode", JVal.str "B"), ("id", JVal.int 5)]

def c4items : List Item := [c4item, [("title", JVal.str "x")]]

/-- Claim C4, witness: with a null product code and a blank stock code the
barcode wins; a batch with one keyless item upserts exactly one row. -/
theorem C4_witness :
    product_code_from_item c4item = some "B" ∧ upsert_products 1 c4items = 1 := by
  constructor
  · exact (C4_business_key c4item 1 c4items).1.trans (by rfl)
  · exact (C4_business_key c4item 1 c4items).2.2.trans (by rfl)

/-- A rate-limit response that arrived (no transport exception). -/
def is429 (r : BResp) : Bool := !r.exn && r.status == 429

theorem is429_elim (r : BResp) (h : is429 r = true) :
    r.exn = false ∧ r.status = 429 := by
  simp [is429] at h
  exact h

theorem retry429_of_is429 (a : ℕ) (r : BResp) (ha : a < 2) (h : is429 r = true) :
    retry429 a r = true := by
  rcases is429_elim r h with ⟨h1, h2⟩
  simp [retry429, h1, h2, ha]

theorem retry429_false_of_status (a : ℕ) (r : BResp) (h : r.status ≠ 429) :
    retry429 a r = false := by
  simp [retry429, h]

theorem attemptResult_auth (r : BResp) (hexn : r.exn = false)
    (hstat : r.status = 401 ∨ r.status = 403) :
    attemptResult r = Except.error (FetchErr.auth r.status) := by
  unfold attemptResult
  rw [if_neg (by simp [hexn]), if_pos hstat]

theorem attemptResult_429 (r : BResp) (hexn : r.exn = false) (hstat : r.status = 429) :
    attemptResult r = Except.error (FetchErr.http 429) := by
  unfold attemptResult
  rw [if_neg (by simp [hexn]), if_neg (by omega), if_pos (by omega), hstat]

theorem attemptResult_ok (r : BResp) (kvs : Item) (hexn : r.exn = false)
    (hstat : r.status < 400) (hbody : r.body = some (JVal.obj kvs)) :
    attemptResult r = Except.ok kvs := by
  unfold attemptResult
  rw [if_neg (by simp [hexn]), if_neg (by omega), if_neg (by omega), hbody]

/-- Claim C5: a 429 from the catalog endpoint is retried at most twice, with
backoff delays 1.5 then 3.0 seconds, before the call fails; a 401/403 fails
immediately, wherever it appears in the attempt sequence, and is never
retried; two 429s followed by a success yield a successful call with exactly
the two linearly increasing delays. -/
theorem C5_retry_policy (rs rest : List BResp) (r0 r1 r2 : BResp) (kvs : Item) :
    ((fetch_products_page rs).sleeps = [] ∨ (fetch_products_page rs).sleeps = [3/2] ∨
      (fetch_products_page rs).sleeps = [3/2, 3]) ∧
    (r0.exn = false → (r0.status = 401 ∨ r0.status = 403) →
      fetch_products_page (r0 :: rest)
        = { outcome := Except.error (FetchErr.auth r0.status), rest := rest,
            sleeps := [] }) ∧
    (is429 r0 = true → r1.exn = false → (r1.status = 401 ∨ r1.status = 403) →
      fetch_products_page (r0 :: r1 :: rest)
        = { outcome := Except.error (FetchErr.auth r1.status), rest := rest,
            sleeps := [3/2] }) ∧
    (is429 r0 = true → is429 r1 = true → r2.exn = false →
      (r2.status = 401 ∨ r2.status = 403) →
      fetch_products_page (r0 :: r1 :: r2 :: rest)
        = { outcome := Except.error (FetchErr.auth r2.status), rest := rest,
            sleeps := [3/2, 3] }) ∧
    (is429 r0 = true → is429 r1 = true → is429 r2 = true →
      fetch_products_page (r0 :: r1 :: r2 :: rest)
        = { outcome := Except.error (FetchErr.http 429), rest := rest,
            sleeps := [3/2, 3] }) ∧
    (is429 r0 = true → is429 r1 = true → r2.exn = false → r2.status < 400 →
      r2.body = some (JVal.obj kvs) →
      fetch_products_page (r0 :: r1 :: r2 :: rest)
        = { outcome := Except.ok kvs, rest := rest, sleeps := [3/2, 3] }) := by
  refine ⟨?_, ?_, ?_, ?_, ?_, ?_⟩
  · by_cases h0 : retry429 0 (pop rs).1 = true
    · by_cases h1 : retry429 1 (pop (pop rs).2).1 = true
      · right; right; simp [fetch_products_page, h0, h1]
      · right; left; simp [fetch_products_page, h0, h1]
    · left; simp [fetch_products_page, h0]
  · intro hexn hstat
    have hr : retry429 0 r0 = false :=
      retry429_false_of_status 0 r0 (by rcases hstat with h | h <;> omega)
    simp [fetch_products_page, pop, hr, attemptResult_auth r0 hexn hstat]
  · intro h0 hexn hstat
    have hr1 : retry429 1 r1 = false :=
      retry429_false_of_status 1 r1 (by rcases hstat with h | h <;> omega)
    simp [fetch_products_page, pop, retry429_of_is429 0 r0 (by omega) h0, hr1,
      attemptResult_auth r1 hexn hstat]
  · intro h0 h1 hexn hstat
    simp [fetch_products_page, pop, retry429_of_is429 0 r0 (by omega) h0,
      retry429_of_is429 1 r1 (by omega) h1, attemptResult_auth r2 hexn hstat]
  · intro h0 h1 h2
    rcases is429_elim r2 h2 with ⟨hexn, hstat⟩
    simp [fetch_products_page, pop, retry429_of_is429 0 r0 (by omega) h0,
      retry429_of_is429 1 r1 (by omega) h1, attemptResult_429 r2 hexn hstat]
  · intro h0 h1 hexn hstat hbody
    simp [fetch_products_page, pop, retry429_of_is429 0 r0 (by omega) h0,
      retry429_of_is429 1 r1 (by omega) h1, attemptResult_ok r2 kvs hexn hstat hbody]

def c5resp : List BResp :=
  [{ exn := false, status := 429, body := none },
   { exn := false, status := 429, body := none },
   { exn := false, status := 200, body := some (JVal.obj [("content", JVal.arr [])]) }]

/-- Claim C5, witness: 429, 429, then a success — the call returns the page
payload and exactly the delays 1.5 and 3.0 were slept. -/
theorem C5_witness :
    fetch_products_page c5resp
      = { outcome := Except.ok [("content", JVal.arr [])], rest := [],
          sleeps := [3/2, 3] } := by
  have h := (C5_retry_policy c5resp [] (c5resp.get ⟨0, by decide⟩)
    (c5resp.get ⟨1, by decide⟩) (c5resp.get ⟨2, by decide⟩)
    [("content", JVal.arr [])]).2.2.2.2.2
  exact h (by rfl) (by rfl) (by rfl) (by decide) (by rfl)

def c9data : Item := [("content", JVal.str "")]

def c9pO : ℕ → List BResp := fun _ => [{ exn := false, status := 200, body := some (JVal.obj c9data) }]

def c9bO : ℕ → List BResp := fun _ => []

/-- Claim C9, counterexample: a catalog payload whose `content` field is the
empty string — not a list — is *not* fatal: `content or []` coerces every
falsy value to the empty list, so the run treats it as an empty page and
finishes successfully. -/
theorem C9_counterexample :
    content_of c9data = Except.ok [] ∧
    sync c9pO c9bO 1 5 = { pages := [0], fetched := 0, upserted := 0, ok := true } := by
  constructor <;> rfl

/-- Claim C9 (amended): a successful catalog response whose body is not a
mapping is a fatal protocol violation, and a *truthy* non-list `content`
field is likewise fatal to the run; a falsy non-list `content` (empty
string, 0, false, null, missing) is instead coerced to the empty list and
treated as an empty page. -/
theorem C9_protocol_violations (r : BResp) (rest : List BResp) (v : JVal) (d : Item)
    (pO bO : ℕ → List BResp) (sid : ℤ) (fuel page : ℕ) (acc : SyncResult) :
    (r.exn = false → r.status < 400 → r.body = some v → (∀ kvs, v ≠ JVal.obj kvs) →
      fetch_products_page (r :: rest)
        = { outcome := Except.error FetchErr.badShape, rest := rest, sleeps := [] }) ∧
    (truthy (jget d "content") = true → (∀ l, jget d "content" ≠ JVal.arr l) →
      content_of d = Except.error ()) ∧
    ((fetch_products_page (pO page)).outcome = Except.ok d →
      content_of d = Except.error () →
      sync_go pO bO sid (fuel + 1) page acc
        = { pages := acc.pages ++ [page], fetched := acc.fetched,
            upserted := acc.upserted, ok := false }) := by
  refine ⟨?_, ?_, ?_⟩
  · intro hexn hstat hbody hno
    have hr : retry429 0 r = false := retry429_false_of_status 0 r (by omega)
    have ha : attemptResult r = Except.error FetchErr.badShape := by
      unfold attemptResult
      rw [if_neg (by simp [hexn]), if_neg (by omega), if_neg (by omega), hbody]
      cases v with
      | obj kvs => exact absurd rfl (hno kvs)
      | null => rfl
      | bool b => rfl
      | int n => rfl
      | num q => rfl
      | str s => rfl
      | arr l => rfl
    simp [fetch_products_page, pop, hr, ha]
  · intro ht hnl
    unfold content_of
    cases hv : jget d "content" with
    | arr l => exact absurd hv (hnl l)
    | null => rw [hv] at ht; simp [truthy] at ht
    | bool b => rw [hv] at ht; simp [truthy] at ht; subst ht; rfl
    | int n => rw [hv] at ht; simp [ht]
    | num q => rw [hv] at ht; simp [ht]
    | str s => rw [hv] at ht; simp [ht]
    | obj kvs => rw [hv] at ht; simp [ht]
  · intro hf hc
    simp [sync_go, hf, hc]

def c9bad : BResp := { exn := false, status := 200, body := some (JVal.arr []) }

/-- Claim C9 (amended), witness: a success whose body is a bare list (not a
mapping) makes the page fetch fail with the protocol-violation error. -/
theorem C9_witness :
    fetch_products_page [c9bad]
      = { outcome := Except.error FetchErr.badShape, rest := [], sleeps := [] } :=
  (C9_protocol_violations c9bad [] (JVal.arr []) [] c9pO c9bO 1 0 0
    { pages := [], fetched := 0, upserted := 0, ok := true }).1
    rfl (by decide) rfl (fun _kvs h => JVal.noConfusion h)

/-! ## Page-loop lemmas for the orchestrator -/

theorem sync_go_pages_length (pO bO : ℕ → List BResp) (sid : ℤ) :
    ∀ (fuel page : ℕ) (acc : SyncResult),
      (sync_go pO bO sid fuel page acc).pages.length ≤ acc.pages.length + fuel := by
  intro fuel
  induction fuel with
  | zero => intro page acc; simp [sync_go]
  | succ f ih =>
    intro page acc
    cases hf : (fetch_products_page (pO page)).outcome with
    | error e => simp [sync_go, hf, List.length_append]
    | ok d =>
      cases hc : content_of d with
      | error e => simp [sync_go, hf, hc, List.length_append]
      | ok content =>
        by_cases hall : content.all isObjB = true
        · by_cases hemp : content.isEmpty = true
          · simp [sync_go, hf, hc, hall, hemp, List.length_append]
          · cases hti : pyIsInt (jget d "totalPages") with
            | some t =>
              by_cases hge : (page : ℤ) + 1 ≥ t
              · simp [sync_go, hf, hc, hall, hemp, hti, hge, List.length_append]
              · simp only [sync_go, hf, hc, hall, hemp, hti, hge, Bool.not_eq_true,
                  if_false, ite_false, eq_self_iff_true]
                refine le_trans (ih (page + 1) _) ?_
                simp only [List.length_append, List.length_cons, List.length_nil]
                omega
            | none =>
              simp only [sync_go, hf, hc, hall, hemp, hti, Bool.not_eq_true]
              refine le_trans (ih (page + 1) _) ?_
              simp only [List.length_append, List.length_cons, List.length_nil]
              omega
        · simp [sync_go, hf, hc, hall, List.length_append]

theorem sync_go_empty_stop (pO bO : ℕ → List BResp) (sid : ℤ) (fuel page : ℕ)
    (acc : SyncResult) (d : Item)
    (hf : (fetch_products_page (pO page)).outcome = Except.ok d)
    (hc : content_of d = Except.ok []) :
    sync_go pO bO sid (fuel + 1) page acc
      = { pages := acc.pages ++ [page], fetched := acc.fetched,
          upserted := acc.upserted, ok := acc.ok } := by
  simp [sync_go, hf, hc]

theorem sync_go_lastpage_stop (pO bO : ℕ → List BResp) (sid : ℤ) (fuel page : ℕ)
    (acc : SyncResult) (d : Item) (l : List JVal) (t : ℤ)
    (hf : (fetch_products_page (pO page)).outcome = Except.ok d)
    (hc : content_of d = Except.ok l) (hne : l ≠ [])
    (hall : l.all isObjB = true)
    (ht : jget d "totalPages" = JVal.int t)
    (hge : (page : ℤ) + 1 ≥ t) :
    sync_go pO bO sid (fuel + 1) page acc
      = { pages := acc.pages ++ [page], fetched := acc.fetched + l.length,
          upserted := acc.upserted + upsert_products sid
            ((l.map asObjD).map (infer_item (bmap_of
              (fetch_buybox_info (bO page) (barcodesOf (l.map asObjD))).1))),
          ok := acc.ok } := by
  have hemp : l.isEmpty = false := by
    cases l with
    | nil => exact absurd rfl hne
    | cons a as => rfl
  simp [sync_go, hf, hc, hall, hemp, ht, pyIsInt, hge]

/-- Claim C6: the page loop issues at most `maxPages` catalog fetches and
terminates; it stops right after the first empty page even when no
`totalPages` is ever returned, and when a fetched page's `totalPages` says
the current page was the last one it persists that page's rows and stops
without fetching the next page. -/
theorem C6_page_loop (pO bO : ℕ → List BResp) (sid : ℤ)
    (maxPages fuel page : ℕ) (acc : SyncResult) (d : Item) (l : List JVal) (t : ℤ) :
    (sync pO bO sid maxPages).pages.length ≤ maxPages ∧
    (sync_go pO bO sid fuel page acc).pages.length ≤ acc.pages.length + fuel ∧
    ((fetch_products_page (pO page)).outcome = Except.ok d →
      content_of d = Except.ok [] →
      sync_go pO bO sid (fuel + 1) page acc
        = { pages := acc.pages ++ [page], fetched := acc.fetched,
            upserted := acc.upserted, ok := acc.ok }) ∧
    ((fetch_products_page (pO page)).outcome = Except.ok d →
      content_of d = Except.ok l → l ≠ [] → l.all isObjB = true →
      jget d "totalPages" = JVal.int t → (page : ℤ) + 1 ≥ t →
      sync_go pO bO sid (fuel + 1) page acc
        = { pages := acc.pages ++ [page], fetched := acc.fetched + l.length,
            upserted := acc.upserted + upsert_products sid
              ((l.map asObjD).map (infer_item (bmap_of
                (fetch_buybox_info (bO page) (barcodesOf (l.map asObjD))).1))),
            ok := acc.ok }) := by
  refine ⟨?_, sync_go_pages_length pO bO sid fuel page acc,
    fun hf hc => sync_go_empty_stop pO bO sid fuel page acc d hf hc,
    fun hf hc hne hall ht hge =>
      sync_go_lastpage_stop pO bO sid fuel page acc d l t hf hc hne hall ht hge⟩
  have h := sync_go_pages_length pO bO sid maxPages 0
    { pages := [], fetched := 0, upserted := 0, ok := true }
  simpa [sync] using h

def c6items : List JVal :=
  [JVal.obj [("productCode", JVal.str "P1"), ("salePrice", JVal.int 10)],
   JVal.obj [("productCode", JVal.str "P2"), ("salePrice", JVal.int 20)],
   JVal.obj [("productCode", JVal.str "P3"), ("salePrice", JVal.int 30)]]

def c6page : Item := [("content", JVal.arr c6items), ("totalPages", JVal.int 1)]

def c6pO : ℕ → List BResp :=
  fun _ => [{ exn := false, status := 200, body := some (JVal.obj c6page) }]

def c6bO : ℕ → List BResp := fun _ => []

def syncInit : SyncResult := { pages := [], fetched := 0, upserted := 0, ok := true }

/-- Claim C6, witness: page 0 with `totalPages = 1` and 3 items with valid
sale prices and no pricing entries — 3 rows are persisted, the run ends
successfully, and page 1 is never fetched. -/
theorem C6_witness :
    sync c6pO c6bO 1 10 = { pages := [0], fetched := 3, upserted := 3, ok := true } := by
  have h := (C6_page_loop c6pO c6bO 1 10 9 0 syncInit c6page c6items 1).2.2.2
    (by rfl) (by rfl) (List.cons_ne_nil _ _) (by rfl) (by rfl) (by decide)
  exact h.trans (by rfl)

/-! ## The enrichment call under successful responses

`insStep`/`buildMap` describe the accumulator updates the entry loop makes
when nothing raises; `lastMatch` names the last response entry carrying a
given barcode, which is what last-write-wins leaves in the mapping. -/

def insStep (m : PyMap) (e : JVal) : PyMap :=
  match e with
  | JVal.obj kvs =>
    let bc := jget kvs "barcode"
    if truthy bc then assocSetPy m bc (JVal.obj kvs) else m
  | _ => m

def buildMap (es : List JVal) (m : PyMap) : PyMap := es.foldl insStep m

/-- An entry the loop can process without raising: a dict whose barcode
field is absent/null or a string. -/
def goodEntry (e : JVal) : Prop :=
  ∃ kvs, e = JVal.obj kvs ∧
    (jget kvs "barcode" = JVal.null ∨ ∃ s, jget kvs "barcode" = JVal.str s)

/-- A successful chunk response: no exception, success status, decodable
body whose entries all process cleanly. -/
def goodResp (r : BResp) : Prop :=
  r.exn = false ∧ r.status < 400 ∧
    ∃ d, r.body = some d ∧ ∃ es, entriesOf d = Except.ok es ∧ ∀ e ∈ es, goodEntry e

/-- The entries a response contributes (empty when undecodable). -/
def respEntries (r : BResp) : List JVal :=
  match r.body with
  | some d =>
    match entriesOf d with
    | Except.ok es => es
    | Except.error _ => []
  | none => []

def allRespEntries : List BResp → List JVal
  | [] => []
  | r :: rest => respEntries r ++ allRespEntries rest

/-- Does this entry carry barcode `s`? -/
def entryBarcodeIs (s : String) (e : JVal) : Bool :=
  match e with
  | JVal.obj kvs =>
    (match jget kvs "barcode" with
     | JVal.str t => t == s
     | _ => false)
  | _ => false

/-- The last entry of the list carrying barcode `s`. -/
def lastMatch (s : String) : List JVal → Option JVal
  | [] => none
  | e :: es =>
    match lastMatch s es with
    | some x => some x
    | none => if entryBarcodeIs s e then some e else none

theorem entryLoop_good (es : List JVal) :
    ∀ m : PyMap, (∀ e ∈ es, goodEntry e) → entryLoop es m = (buildMap es m, false) := by
  induction es with
  | nil => intro m _; rfl
  | cons e es ih =>
    intro m h
    rcases h e (by simp) with ⟨kvs, rfl, hbc⟩
    have hrest : ∀ x ∈ es, goodEntry x := fun x hx => h x (by simp [hx])
    rcases hbc with hnull | ⟨s, hstr⟩
    · simp only [entryLoop, buildMap, List.foldl_cons, insStep, hnull, truthy]
      exact ih m hrest
    · by_cases hs : s = ""
      · subst hs
        simp only [entryLoop, buildMap, List.foldl_cons, insStep, hstr, truthy]
        simpa using ih m hrest
      · simp only [entryLoop, buildMap, List.foldl_cons, insStep, hstr, truthy,
          hashableB]
        have hts : (!(s == "")) = true := by simp [hs]
        simp only [hts, if_true]
        exact ih (assocSetPy m (JVal.str s) (JVal.obj kvs)) hrest

theorem chunkGo_good (n : ℕ) (r : BResp) (rest : List BResp) (m : PyMap)
    (h : goodResp r) :
    chunkGo (n + 1) (r :: rest) m = (buildMap (respEntries r) m, rest) := by
  rcases h with ⟨hexn, hstat, d, hbody, es, hes, hgood⟩
  have h429 : ¬(r.status = 429 ∧ 1 ≤ n) := by omega
  have hre : respEntries r = es := by simp [respEntries, hbody, hes]
  simp only [chunkGo, pop, hexn, Bool.false_eq_true, if_false, if_neg h429,
    if_neg (by omega : ¬(400 ≤ r.status)), hbody, hes, hre]
  rw [entryLoop_good es m hgood]

theorem chunksGo_good (cs : List (List String)) :
    ∀ (rs : List BResp) (m : PyMap), cs.length ≤ rs.length →
      (∀ r ∈ rs.take cs.length, goodResp r) →
      chunksGo cs rs m
        = (buildMap (allRespEntries (rs.take cs.length)) m, rs.drop cs.length) := by
  induction cs with
  | nil => intro rs m _ _; simp [chunksGo, allRespEntries, buildMap]
  | cons c cs ih =>
    intro rs m hlen hgood
    cases rs with
    | nil => simp at hlen
    | cons r rest =>
      have hr : goodResp r := hgood r (by simp)
      have hrest : ∀ x ∈ rest.take cs.length, goodResp x := by
        intro x hx
        exact hgood x (by simp [hx])
      simp only [chunksGo]
      have h3 : chunkGo 3 (r :: rest) m = (buildMap (respEntries r) m, rest) :=
        chunkGo_good 2 r rest m hr
      rw [h3]
      rw [ih rest (buildMap (respEntries r) m) (by simpa using hlen) hrest]
      simp [allRespEntries, buildMap, List.foldl_append, List.take_succ_cons]

theorem pyEq_str_iff (x : JVal) (s : String) : pyEq x (JVal.str s) = true ↔ x = JVal.str s := by
  cases x <;> simp [pyEq]

theorem lookupPy_assocSetPy_str_self (m : PyMap) (a : String) (v : JVal) :
    lookupPy (assocSetPy m (JVal.str a) v) (JVal.str a) = some v := by
  induction m with
  | nil => simp [assocSetPy, lookupPy, pyEq]
  | cons kv rest ih =>
    by_cases h : pyEq kv.1 (JVal.str a) = true
    · simp [assocSetPy, h, lookupPy]
    · simp only [assocSetPy, h, if_false, Bool.false_eq_true, lookupPy]
      simp [h, ih]

theorem lookupPy_assocSetPy_str_ne (m : PyMap) (a b : String) (v : JVal)
    (hab : b ≠ a) :
    lookupPy (assocSetPy m (JVal.str a) v) (JVal.str b)
      = lookupPy m (JVal.str b) := by
  induction m with
  | nil =>
    have hf : pyEq (JVal.str a) (JVal.str b) = false := by
      simp only [pyEq, beq_eq_false_iff_ne, ne_eq]
      exact fun hh => hab hh.symm
    simp [assocSetPy, lookupPy, hf]
  | cons kv rest ih =>
    by_cases h : pyEq kv.1 (JVal.str a) = true
    · have hk : kv.1 = JVal.str a := (pyEq_str_iff kv.1 a).mp h
      have hb : pyEq kv.1 (JVal.str b) = false := by
        rw [hk]
        simp only [pyEq, beq_eq_false_iff_ne, ne_eq]
        exact fun hh => hab hh.symm
      simp [assocSetPy, h, lookupPy, hb]
    · simp only [assocSetPy, h, if_false, Bool.false_eq_true, lookupPy]
      by_cases hb : pyEq kv.1 (JVal.str b) = true
      · simp [hb]
      · simp [hb, ih]

theorem lastMatch_cons_of_not (s : String) (e : JVal) (es : List JVal)
    (h : entryBarcodeIs s e = false) : lastMatch s (e :: es) = lastMatch s es := by
  simp only [lastMatch, h]
  cases lastMatch s es <;> simp

/-- Under clean processing, the final binding for a non-blank barcode is the
last response entry carrying it (falling back to the initial accumulator). -/
theorem lookupPy_buildMap (s : String) (hs : s ≠ "") (es : List JVal) :
    ∀ m : PyMap, (∀ e ∈ es, goodEntry e) →
      lookupPy (buildMap es m) (JVal.str s)
        = (match lastMatch s es with
           | some x => some x
           | none => lookupPy m (JVal.str s)) := by
  induction es with
  | nil => intro m _; simp [buildMap, lastMatch]
  | cons e es ih =>
    intro m h
    rcases h e (by simp) with ⟨kvs, rfl, hbc⟩
    have hrest : ∀ x ∈ es, goodEntry x := fun x hx => h x (by simp [hx])
    have hstep : buildMap (JVal.obj kvs :: es) m = buildMap es (insStep m (JVal.obj kvs)) := by
      simp [buildMap]
    rcases hbc with hnull | ⟨t, hstr⟩
    · have hins : insStep m (JVal.obj kvs) = m := by simp [insStep, hnull, truthy]
      have hebi : entryBarcodeIs s (JVal.obj kvs) = false := by
        simp [entryBarcodeIs, hnull]
      rw [hstep, hins, lastMatch_cons_of_not s _ es hebi]
      exact ih m hrest
    · by_cases ht : t = ""
      · subst ht
        have hins : insStep m (JVal.obj kvs) = m := by simp [insStep, hstr, truthy]
        have hebi : entryBarcodeIs s (JVal.obj kvs) = false := by
          simp [entryBarcodeIs, hstr]
          exact fun hh => hs hh.symm
        rw [hstep, hins, lastMatch_cons_of_not s _ es hebi]
        exact ih m hrest
      · have hins : insStep m (JVal.obj kvs)
            = assocSetPy m (JVal.str t) (JVal.obj kvs) := by
          simp [insStep, hstr, truthy, ht]
        rw [hstep, hins, ih (assocSetPy m (JVal.str t) (JVal.obj kvs)) hrest]
        cases hlm : lastMatch s es with
        | some x => simp [lastMatch, hlm]
        | none =>
          simp only [lastMatch, hlm]
          by_cases hts : t = s
          · have hebi : entryBarcodeIs s (JVal.obj kvs) = true := by
              simp [entryBarcodeIs, hstr, hts]
            rw [hts]
            simp [hebi, lookupPy_assocSetPy_str_self]
          · have hebi : entryBarcodeIs s (JVal.obj kvs) = false := by
              simp [entryBarcodeIs, hstr, hts]
            simp [hebi, lookupPy_assocSetPy_str_ne m t s _ (fun hh => hts hh.symm)]

theorem assocSetPy_mem (m : PyMap) (bc val k v : JVal)
    (h : (k, v) ∈ assocSetPy m bc val) : (∃ v', (k, v') ∈ m) ∨ k = bc := by
  induction m with
  | nil =>
    simp only [assocSetPy, List.mem_singleton, Prod.mk.injEq] at h
    exact Or.inr h.1
  | cons kv rest ih =>
    by_cases hh : pyEq kv.1 bc = true
    · simp only [assocSetPy, hh, if_true] at h
      rcases List.mem_cons.mp h with heq | hmem
      · have hk : k = kv.1 := (Prod.mk.injEq _ _ _ _ ▸ heq).1
        exact Or.inl ⟨kv.2, by rw [hk]; exact List.mem_cons_self kv rest⟩
      · exact Or.inl ⟨v, List.mem_cons_of_mem kv hmem⟩
    · simp only [assocSetPy, hh, Bool.false_eq_true, if_false] at h
      rcases List.mem_cons.mp h with heq | hmem
      · exact Or.inl ⟨v, by rw [heq]; exact List.mem_cons_self kv rest⟩
      · rcases ih hmem with ⟨v', hv'⟩ | hk
        · exact Or.inl ⟨v', List.mem_cons_of_mem kv hv'⟩
        · exact Or.inr hk

theorem buildMap_mem_key (es : List JVal) :
    ∀ (m : PyMap) (k v : JVal), (k, v) ∈ buildMap es m →
      (∃ v', (k, v') ∈ m) ∨ ∃ kvs, JVal.obj kvs ∈ es ∧ jget kvs "barcode" = k := by
  induction es with
  | nil => intro m k v h; exact Or.inl ⟨v, h⟩
  | cons e es ih =>
    intro m k v h
    have h' := ih (insStep m e) k v (by simpa [buildMap] using h)
    rcases h' with ⟨v', hv'⟩ | ⟨kvs, hkvs, hbc⟩
    · cases e with
      | obj kvs =>
        simp only [insStep] at hv'
        by_cases ht : truthy (jget kvs "barcode") = true
        · rw [if_pos ht] at hv'
          rcases assocSetPy_mem m _ _ k v' hv' with ⟨v'', hv''⟩ | hk
          · exact Or.inl ⟨v'', hv''⟩
          · exact Or.inr ⟨kvs, by simp, hk.symm⟩
        · rw [if_neg ht] at hv'
          exact Or.inl ⟨v', hv'⟩
      | null => exact Or.inl ⟨v', hv'⟩
      | bool b => exact Or.inl ⟨v', hv'⟩
      | int n => exact Or.inl ⟨v', hv'⟩
      | num q => exact Or.inl ⟨v', hv'⟩
      | str s => exact Or.inl ⟨v', hv'⟩
      | arr l => exact Or.inl ⟨v', hv'⟩
    · exact Or.inr ⟨kvs, by simp [hkvs], hbc⟩

theorem allRespEntries_good (rs : List BResp) (h : ∀ r ∈ rs, goodResp r) :
    ∀ e ∈ allRespEntries rs, goodEntry e := by
  induction rs with
  | nil => intro e he; simp [allRespEntries] at he
  | cons r rest ih =>
    intro e he
    rcases List.mem_append.mp (by simpa [allRespEntries] using he) with h1 | h2
    · rcases h r (by simp) with ⟨_, _, d, hbody, es, hes, hgood⟩
      have : respEntries r = es := by simp [respEntries, hbody, hes]
      exact hgood e (this ▸ h1)
    · exact ih (fun x hx => h x (by simp [hx])) e h2

theorem fetch_buybox_info_good (rs : List BResp) (bs : List String)
    (hlen : (chunksOf20 (normalize_barcodes bs)).length ≤ rs.length)
    (hgood : ∀ r ∈ rs.take (chunksOf20 (normalize_barcodes bs)).length, goodResp r) :
    fetch_buybox_info rs bs
      = (buildMap (allRespEntries
            (rs.take (chunksOf20 (normalize_barcodes bs)).length)) [],
         rs.drop (chunksOf20 (normalize_barcodes bs)).length) := by
  by_cases hbs : bs.isEmpty = true
  · have hb : bs = [] := by
      cases bs with
      | nil => rfl
      | cons a l => simp at hbs
    subst hb
    simp [fetch_buybox_info, normalize_barcodes, dedupFirst, dedupGo, chunksOf20,
      chunksGoF, allRespEntries, buildMap]
  · by_cases hu : (normalize_barcodes bs).isEmpty = true
    · have hn : normalize_barcodes bs = [] := by
        cases hnb : normalize_barcodes bs with
        | nil => rfl
        | cons a l => rw [hnb] at hu; simp at hu
      simp [fetch_buybox_info, hbs, hu, hn, chunksOf20, chunksGoF, allRespEntries,
        buildMap]
    · simp only [fetch_buybox_info, hbs, hu, Bool.false_eq_true, if_false]
      exact chunksGo_good (chunksOf20 (normalize_barcodes bs)) rs [] hlen hgood

/-- Claim C7: enrichment deduplicates and strips its identifiers before any
request, returning an empty mapping on an empty remainder without touching
the network (the response stream is left untouched); a chunk whose request
comes back with a transport exception or a non-rate-limit error status is
abandoned with no entries contributed, while the remaining chunks are still
processed from the same accumulated state. -/
theorem C7_partial_failure (rs rest : List BResp) (bs : List String)
    (n : ℕ) (r : BResp) (m : PyMap) (c : List String) (cs : List (List String)) :
    (normalize_barcodes bs = [] → fetch_buybox_info rs bs = ([], rs)) ∧
    ((r.exn = true ∨ (400 ≤ r.status ∧ r.status ≠ 429)) →
      chunkGo (n + 1) (r :: rest) m = (m, rest)) ∧
    ((r.exn = true ∨ (400 ≤ r.status ∧ r.status ≠ 429)) →
      chunksGo (c :: cs) (r :: rest) m = chunksGo cs rest m) := by
  have habandon : (r.exn = true ∨ (400 ≤ r.status ∧ r.status ≠ 429)) →
      ∀ k : ℕ, chunkGo (k + 1) (r :: rest) m = (m, rest) := by
    intro h k
    by_cases hexn : r.exn = true
    · simp [chunkGo, pop, hexn]
    · rcases h with h | ⟨h4, h9⟩
      · exact absurd h hexn
      · simp [chunkGo, pop, hexn, h9, h4]
  refine ⟨?_, fun h => habandon h n, fun h => ?_⟩
  · intro h
    by_cases hbs : bs.isEmpty = true
    · simp [fetch_buybox_info, hbs]
    · simp [fetch_buybox_info, hbs, h]
  · simp only [chunksGo]
    have h3 : chunkGo 3 (r :: rest) m = (m, rest) := habandon h 2
    rw [h3]

def c7err : BResp := { exn := false, status := 404, body := none }

/-- Claim C7, witness: blank-only identifiers produce an empty mapping with
the response stream untouched, and a 404 chunk is skipped while the next
chunk is still processed. -/
theorem C7_witness :
    fetch_buybox_info [c7err] ["", "  "] = ([], [c7err]) ∧
    chunksGo [["A"], ["B"]] [c7err, c7err] [] = chunksGo [["B"]] [c7err] [] := by
  constructor
  · exact (C7_partial_failure [c7err] [] ["", "  "] 0 c7err [] [] []).1 (by rfl)
  · exact (C7_partial_failure [] [c7err] ["", "  "] 0 c7err [] ["A"] [["B"]]).2.2
      (Or.inr (by decide))

def c8entry : Item := [("barcode", JVal.str "B")]

def c8resp : List BResp :=
  [{ exn := false, status := 200, body := some (JVal.arr [JVal.obj c8entry]) }]

/-- Claim C8, counterexample: the mapping is keyed by the barcodes the
*responses* report, not by the requested identifiers — a successful chunk
response carrying barcode "B" for the request ["A"] puts "B" into the
result, so the key set is not a subset of the inputs. -/
theorem C8_counterexample :
    (fetch_buybox_info c8resp ["A"]).1 = [(JVal.str "B", JVal.obj c8entry)] ∧
    ¬ "B" ∈ normalize_barcodes ["A"] := ⟨rfl, by decide⟩

/-- Claim C8 (amended): when every chunk request succeeds, the enrichment
call consumes one response per chunk and its mapping is exactly the
last-write-wins fold of all response entries: every key is the barcode
reported by some response entry (hence a subset of the inputs exactly when
the endpoint echoes only requested barcodes), and for any non-blank
identifier the mapping holds the *last* response entry carrying it —
in particular every identifier appearing in some successful chunk response
with a matching barcode appears in the result. -/
theorem C8_chunked_enrichment (rs : List BResp) (bs : List String) (k v : JVal)
    (s : String) :
    (chunksOf20 (normalize_barcodes bs)).length ≤ rs.length →
    (∀ r ∈ rs.take (chunksOf20 (normalize_barcodes bs)).length, goodResp r) →
      fetch_buybox_info rs bs
          = (buildMap (allRespEntries
                (rs.take (chunksOf20 (normalize_barcodes bs)).length)) [],
             rs.drop (chunksOf20 (normalize_barcodes bs)).length) ∧
      ((k, v) ∈ (fetch_buybox_info rs bs).1 →
        ∃ kvs, JVal.obj kvs ∈ allRespEntries
            (rs.take (chunksOf20 (normalize_barcodes bs)).length) ∧
          jget kvs "barcode" = k) ∧
      (s ≠ "" →
        lookupPy (fetch_buybox_info rs bs).1 (JVal.str s)
          = lastMatch s (allRespEntries
              (rs.take (chunksOf20 (normalize_barcodes bs)).length))) := by
  intro hlen hgood
  have hcore := fetch_buybox_info_good rs bs hlen hgood
  have hTakeGood : ∀ r ∈ rs.take (chunksOf20 (normalize_barcodes bs)).length,
      goodResp r := hgood
  refine ⟨hcore, ?_, ?_⟩
  · intro hkv
    rw [hcore] at hkv
    rcases buildMap_mem_key _ _ k v hkv with ⟨v', hv'⟩ | hres
    · simp at hv'
    · exact hres
  · intro hs
    rw [hcore]
    have hge := allRespEntries_good
      (rs.take (chunksOf20 (normalize_barcodes bs)).length) hTakeGood
    have h := lookupPy_buildMap s hs
      (allRespEntries (rs.take (chunksOf20 (normalize_barcodes bs)).length)) [] hge
    rw [show ((buildMap (allRespEntries
          (rs.take (chunksOf20 (normalize_barcodes bs)).length)) [],
        rs.drop (chunksOf20 (normalize_barcodes bs)).length).1
      = buildMap (allRespEntries
          (rs.take (chunksOf20 (normalize_barcodes bs)).length)) []) from rfl]
    rw [h]
    cases lastMatch s (allRespEntries
        (rs.take (chunksOf20 (normalize_barcodes bs)).length)) with
    | none => rfl
    | some x => rfl

def c8e1 : Item := [("barcode", JVal.str "A"), ("buyboxOrder", JVal.int 1)]

def c8e2 : Item := [("barcode", JVal.str "A"), ("buyboxOrder", JVal.int 2)]

def c8body : JVal := JVal.obj [("buyboxInfo", JVal.arr [JVal.obj c8e1, JVal.obj c8e2])]

def c8wr : BResp := { exn := false, status := 200, body := some c8body }

def c8wresp : List BResp := [c8wr]

/-- Claim C8 (amended), witness: identifiers are stripped and deduplicated
into one chunk; with two response entries for barcode "A" the mapping holds
the last one. -/
theorem C8_witness :
    lookupPy (fetch_buybox_info c8wresp ["A", " A ", "A"]).1 (JVal.str "A")
      = some (JVal.obj c8e2) := by
  have hlen : (chunksOf20 (normalize_barcodes ["A", " A ", "A"])).length
      ≤ c8wresp.length := by decide
  have hgood : ∀ r ∈ c8wresp.take
      (chunksOf20 (normalize_barcodes ["A", " A ", "A"])).length, goodResp r := by
    intro r hr
    have ht : c8wresp.take
        (chunksOf20 (normalize_barcodes ["A", " A ", "A"])).length = [c8wr] := rfl
    rw [ht] at hr
    have hr3 : r = c8wr := by simpa using hr
    subst hr3
    refine ⟨rfl, by decide, c8body, rfl, [JVal.obj c8e1, JVal.obj c8e2], rfl, ?_⟩
    intro e he
    rcases (by simpa using he : e = JVal.obj c8e1 ∨ e = JVal.obj c8e2) with rfl | rfl
    · exact ⟨c8e1, rfl, Or.inr ⟨"A", rfl⟩⟩
    · exact ⟨c8e2, rfl, Or.inr ⟨"A", rfl⟩⟩
  have h := (C8_chunked_enrichment c8wresp ["A", " A ", "A"] JVal.null JVal.null "A"
    hlen hgood).2.2 (by decide)
  exact h.trans (by rfl)

def c10e : Item := [("barcode", JVal.str "A")]

def c10resp : List BResp :=
  [{ exn := false, status := 200, body := some (JVal.arr [JVal.obj c10e, JVal.int 5]) }]

/-- Claim C10, counterexample: a chunk whose second entry is a non-dict
raises inside the entry loop, yet the first entry has already been recorded
— the caught exception does *not* convert the chunk into an empty
contribution, the partial map is kept. -/
theorem C10_counterexample :
    (fetch_buybox_info c10resp ["A"]).1 = [(JVal.str "A", JVal.obj c10e)] ∧
    (entryLoop [JVal.obj c10e, JVal.int 5] []).2 = true ∧
    [(JVal.str "A", JVal.obj c10e)] ≠ ([] : PyMap) :=
  ⟨rfl, rfl, List.cons_ne_nil _ _⟩

/-- Claim C10 (amended): `fetch_buybox_info` is total over its responses —
every per-chunk exception is caught (the model returns a mapping for every
response stream by construction) — but an exception raised while iterating
a chunk's entries only abandons the *remainder* of that chunk: the entries
recorded before the failing one are kept, and the following chunks are
still processed from that partial state. -/
theorem C10_exception_mechanism (es1 es2 : List JVal) (e : JVal) (m : PyMap)
    (rest : List BResp) (r : BResp) (cs : List (List String)) (c : List String)
    (d : JVal) :
    ((∀ x ∈ es1, goodEntry x) → (∀ kvs, e ≠ JVal.obj kvs) →
      entryLoop (es1 ++ e :: es2) m = (buildMap es1 m, true)) ∧
    (r.exn = false → r.status < 400 → r.body = some d →
      entriesOf d = Except.ok (es1 ++ e :: es2) →
      (∀ x ∈ es1, goodEntry x) → (∀ kvs, e ≠ JVal.obj kvs) →
      chunksGo (c :: cs) (r :: rest) m = chunksGo cs rest (buildMap es1 m)) := by
  have hloop : ∀ (es1 : List JVal) (m : PyMap), (∀ x ∈ es1, goodEntry x) →
      (∀ kvs, e ≠ JVal.obj kvs) →
      entryLoop (es1 ++ e :: es2) m = (buildMap es1 m, true) := by
    intro es1
    induction es1 with
    | nil =>
      intro m _ hne
      cases e with
      | obj kvs => exact absurd rfl (hne kvs)
      | null => rfl
      | bool b => rfl
      | int n => rfl
      | num q => rfl
      | str s => rfl
      | arr l => rfl
    | cons x es1 ih =>
      intro m h hne
      rcases h x (by simp) with ⟨kvs, rfl, hbc⟩
      have hrest : ∀ y ∈ es1, goodEntry y := fun y hy => h y (by simp [hy])
      rcases hbc with hnull | ⟨s, hstr⟩
      · simp only [List.cons_append, entryLoop, hnull, truthy, buildMap,
          List.foldl_cons, insStep]
        exact ih m hrest hne
      · by_cases hs : s = ""
        · subst hs
          simp only [List.cons_append, entryLoop, hstr, truthy, buildMap,
            List.foldl_cons, insStep]
          simpa using ih m hrest hne
        · simp only [List.cons_append, entryLoop, hstr, truthy, hashableB,
            buildMap, List.foldl_cons, insStep]
          have hts : (!(s == "")) = true := by simp [hs]
          simp only [hts, if_true]
          exact ih (assocSetPy m (JVal.str s) (JVal.obj kvs)) hrest hne
  refine ⟨fun h hne => hloop es1 m h hne, ?_⟩
  intro hexn hstat hbody hes h hne
  simp only [chunksGo]
  have h3 : chunkGo 3 (r :: rest) m = (buildMap es1 m, rest) := by
    show chunkGo (2 + 1) (r :: rest) m = _
    simp only [chunkGo, pop, hexn, Bool.false_eq_true, if_false,
      if_neg (by omega : ¬(r.status = 429 ∧ 1 ≤ 2)),
      if_neg (by omega : ¬(400 ≤ r.status)), hbody, hes]
    rw [hloop es1 m h hne]
  rw [h3]

/-- Claim C10 (amended), witness: a good entry followed by a raising one —
the loop stops with the exception flag set but keeps the first binding. -/
theorem C10_witness :
    entryLoop [JVal.obj c10e, JVal.int 5] [] = (buildMap [JVal.obj c10e] [], true) := by
  have h := (C10_exception_mechanism [JVal.obj c10e] [] (JVal.int 5) []
    [] { exn := false, status := 0, body := none } [] [] JVal.null).1
  refine h ?_ (fun kvs hk => JVal.noConfusion hk)
  intro x hx
  rcases (by simpa using hx : x = JVal.obj c10e) with rfl
  exact ⟨c10e, rfl, Or.inr ⟨"A", rfl⟩⟩
